import Mathlib

/-!
Verification development for the k8s-tui pod manager.

The definitions below are a shallow embedding of the Go source:
  * `ParseCommand` embeds `internal/k8s/exec.go` (command tokenizer);
  * `parseLsLine` / `ParseLsOutput` embed `internal/k8s/files.go`
    (directory-listing parser, including the exact matching semantics of
    the anchored Go regular expression used there);
  * `LogViewModel` embeds the log view component (`internal/ui`, logs view);
  * `ExecViewModel` embeds the exec view component (`internal/ui/exec.go`);
  * `AppModel` embeds the application model of `internal/app/app.go`.

Machine integers are modelled as `Nat`/`Int`; Go slices as `List`;
`nil` errors as `Option`.  The `Viewport` structure models the
charmbracelet/bubbles viewport dependency (offset clamping) that the UI
components delegate scrolling to.
-/

namespace K8sTui

/-! ## Command tokenizer (`internal/k8s/exec.go`, `ParseCommand`) -/

/-- Whitespace as recognised by Go `unicode.IsSpace` / `strings.TrimSpace`
(ASCII whitespace plus NEL and NBSP; wider Unicode space classes do not
occur in the inputs considered here). -/
def goUnicodeIsSpace (c : Char) : Bool :=
  c = ' ' || c = '\t' || c = '\n' || c = (Char.ofNat 11) || c = (Char.ofNat 12) ||
  c = '\r' || c = (Char.ofNat 0x85) || c = (Char.ofNat 0xA0)

/-- Go `strings.TrimSpace` on a character list. -/
def goTrimSpace (l : List Char) : List Char :=
  ((l.dropWhile goUnicodeIsSpace).reverse.dropWhile goUnicodeIsSpace).reverse

/-- The rune loop of `ParseCommand`: `inQ` is the `inQuotes` flag, `cur` the
pending `strings.Builder` content.  A double quote toggles quoting, a space
outside quotes flushes the pending token (when non-empty), anything else is
appended to the pending token. -/
def pcLoop : List Char → Bool → List Char → List (List Char)
  | [], _, cur => if cur.isEmpty then [] else [cur]
  | c :: rest, inQ, cur =>
    if c = '\"' then pcLoop rest (!inQ) cur
    else if c = ' ' ∧ inQ = false then
      if cur.isEmpty then pcLoop rest inQ [] else cur :: pcLoop rest inQ []
    else pcLoop rest inQ (cur ++ [c])

/-- `ParseCommand` from `internal/k8s/exec.go`: trim, return `nil` (here `[]`)
for an empty trimmed input, otherwise run the rune loop. -/
def ParseCommand (cmd : String) : List String :=
  let t := goTrimSpace cmd.data
  if t.isEmpty then [] else (pcLoop t false []).map (fun w => String.mk w)

/-! ## Directory-listing parser (`internal/k8s/files.go`) -/

/-- One parsed directory entry (`FileInfo` in `files.go`). -/
structure FileInfo where
  name : String
  isDir : Bool
  isSymlink : Bool
  size : Int
  permissions : String
  owner : String
  group : String
  modTime : String
  linkTarget : String
deriving DecidableEq

/-- Whitespace class `\s` of Go `regexp` (`[\t\n\f\r ]`). -/
def goRegexIsSpace (c : Char) : Bool :=
  c = ' ' || c = '\t' || c = '\n' || c = (Char.ofNat 12) || c = '\r'

/-- Character class `[drwxlst-]` of the permission field. -/
def isPermChar (c : Char) : Bool :=
  c = 'd' || c = 'r' || c = 'w' || c = 'x' || c = 'l' || c = 's' || c = 't' || c = '-'

/-- Word class `\w` of Go `regexp` (`[0-9A-Za-z_]`). -/
def isWordChar (c : Char) : Bool := c.isAlphanum || c = '_'

/-- Class `[\d:]` used for the time-or-year field. -/
def isTimeChar (c : Char) : Bool := c.isDigit || c = ':'

/-- Take a non-empty maximal run of characters satisfying `p` (one `X+`
group of the pattern; maximal-munch agrees with the regex because each
group class is disjoint from the following `\s`). -/
def takeField1 (p : Char → Bool) (l : List Char) : Option (List Char × List Char) :=
  let f := l.takeWhile p
  if f.isEmpty then none else some (f, l.dropWhile p)

/-- Skip a non-empty run of `\s` characters. -/
def skipSpaces1 (l : List Char) : Option (List Char) :=
  if (l.takeWhile goRegexIsSpace).isEmpty then none else some (l.dropWhile goRegexIsSpace)

/-- The final `\s+(.+)$` of the pattern, with the exact leftmost-greedy
semantics of Go `regexp`: the whitespace run is matched greedily and `(.+)`
takes the (non-empty, newline-free) remainder; when the remainder is empty
the engine backtracks one whitespace character into the capture. -/
def nameField (l : List Char) : Option (List Char) :=
  let ws := l.takeWhile goRegexIsSpace
  let rest := l.dropWhile goRegexIsSpace
  if ws.isEmpty then none
  else if rest.isEmpty then
    if 2 ≤ ws.length ∧ ws.getLast? ≠ some '\n' then some [ws.getLastD ' '] else none
  else if rest.contains '\n' then none else some rest

/-- The nine captures of the `parseLsLine` pattern. -/
structure LsFields where
  perm : List Char
  links : List Char
  owner : List Char
  group : List Char
  size : List Char
  month : List Char
  day : List Char
  time : List Char
  name : List Char

/-- Matching the anchored pattern
`^([drwxlst-]{10})\s+(\d+)\s+(\S+)\s+(\S+)\s+(\d+)\s+(\w+)\s+(\d+)\s+([\d:]+)\s+(.+)$`
against a line.  Every adjacent pair of classes except the final
`\s+ (.+)` is disjoint, so maximal-munch field extraction coincides with
the regex; the final pair is handled by `nameField`. -/
def matchLsLine (l : List Char) : Option LsFields := do
  let perm := l.take 10
  if perm.length = 10 ∧ perm.all isPermChar then
    let r1 ← skipSpaces1 (l.drop 10)
    let (links, r2) ← takeField1 Char.isDigit r1
    let r3 ← skipSpaces1 r2
    let (owner, r4) ← takeField1 (fun c => !(goRegexIsSpace c)) r3
    let r5 ← skipSpaces1 r4
    let (group, r6) ← takeField1 (fun c => !(goRegexIsSpace c)) r5
    let r7 ← skipSpaces1 r6
    let (size, r8) ← takeField1 Char.isDigit r7
    let r9 ← skipSpaces1 r8
    let (month, r10) ← takeField1 isWordChar r9
    let r11 ← skipSpaces1 r10
    let (day, r12) ← takeField1 Char.isDigit r11
    let r13 ← skipSpaces1 r12
    let (time, r14) ← takeField1 isTimeChar r13
    let name ← nameField r14
    pure ⟨perm, links, owner, group, size, month, day, time, name⟩
  else
    none

/-- Decimal value of a digit string. -/
def digitsToNat (l : List Char) : Nat :=
  l.foldl (fun a c => a * 10 + (c.toNat - 48)) 0

/-- `strconv.ParseInt(_, 10, 64)` followed by the source's `size = 0`
fallback on a range error. -/
def goParseSize (l : List Char) : Int :=
  let n := digitsToNat l
  if n ≤ 9223372036854775807 then (n : Int) else 0

/-- Split at the first occurrence of `sep` (`strings.SplitN(s, sep, 2)`);
`none` when `sep` does not occur. -/
def splitFirst (sep : List Char) : List Char → Option (List Char × List Char)
  | [] => none
  | c :: rest =>
    if sep.isPrefixOf (c :: rest) then some ([], (c :: rest).drop sep.length)
    else
      match splitFirst sep rest with
      | some (a, b) => some (c :: a, b)
      | none => none

/-- The literal separator for symlink targets. -/
def arrowSep : List Char := [' ', '-', '>', ' ']

/-- `parseLsLine` from `files.go`: match the pattern, classify by the first
permission character, and split symlink names on the first arrow. -/
def parseLsLine (line : String) : Option FileInfo :=
  match matchLsLine line.data with
  | none => none
  | some f =>
    let isSym := f.perm.headD ' ' = 'l'
    let base : FileInfo :=
      { name := ""
        isDir := f.perm.headD ' ' = 'd'
        isSymlink := isSym
        size := goParseSize f.size
        permissions := String.mk f.perm
        owner := String.mk f.owner
        group := String.mk f.group
        modTime := String.mk f.month ++ " " ++ String.mk f.day ++ " " ++ String.mk f.time
        linkTarget := "" }
    if isSym then
      match splitFirst arrowSep f.name with
      | some (a, b) => some { base with name := String.mk a, linkTarget := String.mk b }
      | none => some { base with name := String.mk f.name }
    else
      some { base with name := String.mk f.name }

/-- `strings.Split(s, "\n")` on a character list. -/
def splitNl (l : List Char) : List (List Char) :=
  l.foldr (fun c s => if c = '\n' then [] :: s else (c :: s.headD []) :: s.tail) [[]]

/-- Per-line step of `ParseLsOutput`: trim, skip blank lines and the
`total N` summary line, and silently skip lines `parseLsLine` rejects. -/
def lsLineEntry (line : List Char) : Option FileInfo :=
  let t := goTrimSpace line
  if t.isEmpty then none
  else if ([ 't', 'o', 't', 'a', 'l', ' ' ] : List Char).isPrefixOf t then none
  else parseLsLine (String.mk t)

/-- `ParseLsOutput` from `files.go`.  The Go function returns
`([]FileInfo, error)` with an always-`nil` error; the embedding returns the
entry list directly. -/
def ParseLsOutput (output : String) : List FileInfo :=
  (splitNl output.data).filterMap lsLineEntry

/-! ## Viewport (model of the charmbracelet/bubbles viewport dependency)

The log and exec views delegate scrolling to `viewport.Model`.  Its scroll
state is an integer `YOffset` clamped into `[0, maxYOffset]` where
`maxYOffset = max(0, lineCount - Height)`; `AtBottom` holds when
`YOffset >= maxYOffset`.  `Nat` subtraction supplies the lower clamp. -/

structure Viewport where
  width : Nat
  height : Nat
  yOffset : Nat
  lineCount : Nat
deriving DecidableEq

/-- `max(0, lineCount - Height)`. -/
def Viewport.maxYOffset (v : Viewport) : Nat := v.lineCount - v.height

/-- `SetYOffset`: clamp into `[0, maxYOffset]`. -/
def Viewport.setYOffset (v : Viewport) (n : Nat) : Viewport :=
  { v with yOffset := min n v.maxYOffset }

/-- `AtBottom`: `YOffset >= maxYOffset`. -/
def Viewport.atBottom (v : Viewport) : Bool := v.maxYOffset ≤ v.yOffset

/-- `LineUp(n)`. -/
def Viewport.lineUp (v : Viewport) (n : Nat) : Viewport := v.setYOffset (v.yOffset - n)

/-- `LineDown(n)`. -/
def Viewport.lineDown (v : Viewport) (n : Nat) : Viewport := v.setYOffset (v.yOffset + n)

/-- `GotoTop`. -/
def Viewport.gotoTop (v : Viewport) : Viewport := v.setYOffset 0

/-- `GotoBottom`. -/
def Viewport.gotoBottom (v : Viewport) : Viewport := v.setYOffset v.maxYOffset

/-- `ViewUp`: one page (= height) up. -/
def Viewport.viewUp (v : Viewport) : Viewport := v.lineUp v.height

/-- `ViewDown`: one page down. -/
def Viewport.viewDown (v : Viewport) : Viewport := v.lineDown v.height

/-- `SetContent`: store the new line count and jump to the bottom when the
offset has run past the last line. -/
def Viewport.setContent (v : Viewport) (n : Nat) : Viewport :=
  let v' := { v with lineCount := n }
  if v'.lineCount - 1 < v'.yOffset then v'.gotoBottom else v'

/-- Iterated `LineUp(1)` (the loop in `LogViewModel.ScrollUp`). -/
def Viewport.lineUpTimes (v : Viewport) : Nat → Viewport
  | 0 => v
  | n + 1 => (v.lineUp 1).lineUpTimes n

/-- Iterated `LineDown(1)` (the loop in `LogViewModel.ScrollDown`). -/
def Viewport.lineDownTimes (v : Viewport) : Nat → Viewport
  | 0 => v
  | n + 1 => (v.lineDown 1).lineDownTimes n

/-! ## Log view (`internal/ui`, `LogViewModel`) -/

/-- `LogViewState`. -/
inductive LogViewState where
  | idle
  | streaming
  | paused
  | error
  | ended
deriving DecidableEq

/-- The log viewing component.  The Go field `namespace` is a Lean keyword
and is embedded as `namespaceName`. -/
structure LogViewModel where
  viewport : Viewport
  lines : List String
  maxLines : Nat
  contentDirty : Bool
  state : LogViewState
  follow : Bool
  pod : String
  container : String
  namespaceName : String
  errorMsg : String
  width : Nat
  height : Nat
  ready : Bool
deriving DecidableEq

/-- `NewLogViewModel`. -/
def NewLogViewModel : LogViewModel :=
  { viewport := ⟨0, 0, 0, 0⟩
    lines := []
    maxLines := 10000
    contentDirty := false
    state := .idle
    follow := true
    pod := ""
    container := ""
    namespaceName := ""
    errorMsg := ""
    width := 0
    height := 0
    ready := false }

/-- Number of viewport content lines produced by
`strings.Join(lines, "\n")` followed by the viewport's split on `"\n"`. -/
def contentLineCount (lines : List String) : Nat :=
  (splitNl (String.intercalate "\n" lines).data).length

/-- `updateViewportContent`: materialize the joined lines into the viewport
and jump to the bottom when following. -/
def LogViewModel.updateViewportContent (m : LogViewModel) : LogViewModel :=
  if m.ready = false then m
  else
    let v := m.viewport.setContent (contentLineCount m.lines)
    let v := if m.follow then v.gotoBottom else v
    { m with viewport := v, contentDirty := false }

/-- `SetPodInfo`. -/
def LogViewModel.SetPodInfo (m : LogViewModel) (ns pod container : String) : LogViewModel :=
  { m with namespaceName := ns, pod := pod, container := container }

/-- `SetState`. -/
def LogViewModel.SetState (m : LogViewModel) (s : LogViewState) : LogViewModel :=
  { m with state := s }

/-- `SetError`. -/
def LogViewModel.SetError (m : LogViewModel) (err : String) : LogViewModel :=
  { m with errorMsg := err, state := .error }

/-- `ToggleFollow`. -/
def LogViewModel.ToggleFollow (m : LogViewModel) : LogViewModel :=
  if !m.follow then { m with follow := true, viewport := m.viewport.gotoBottom }
  else { m with follow := false }

/-- `AddLine`: append, and when the count exceeds `maxLines` drop the
oldest `maxLines / 10` lines in one batch. -/
def LogViewModel.AddLine (m : LogViewModel) (line : String) : LogViewModel :=
  let ls := m.lines ++ [line]
  if m.maxLines < ls.length then
    { m with lines := ls.drop (m.maxLines / 10), contentDirty := true }
  else
    { m with lines := ls, contentDirty := true }

/-- `AddLines`: iterated `AddLine`. -/
def LogViewModel.AddLines (m : LogViewModel) (lines : List String) : LogViewModel :=
  lines.foldl LogViewModel.AddLine m

/-- `Clear`. -/
def LogViewModel.Clear (m : LogViewModel) : LogViewModel :=
  LogViewModel.updateViewportContent { m with lines := [], contentDirty := true }

/-- `ScrollUp`: disable follow, then `lines` iterations of `LineUp(1)`. -/
def LogViewModel.ScrollUp (m : LogViewModel) (lines : Nat) : LogViewModel :=
  { m with follow := false, viewport := m.viewport.lineUpTimes lines }

/-- `ScrollDown`: `lines` iterations of `LineDown(1)`, then re-enable follow
when the viewport is at the bottom. -/
def LogViewModel.ScrollDown (m : LogViewModel) (lines : Nat) : LogViewModel :=
  let v := m.viewport.lineDownTimes lines
  if v.atBottom then { m with viewport := v, follow := true }
  else { m with viewport := v }

/-- `PageUp`. -/
def LogViewModel.PageUp (m : LogViewModel) : LogViewModel :=
  { m with follow := false, viewport := m.viewport.viewUp }

/-- `PageDown`. -/
def LogViewModel.PageDown (m : LogViewModel) : LogViewModel :=
  let v := m.viewport.viewDown
  if v.atBottom then { m with viewport := v, follow := true }
  else { m with viewport := v }

/-- `GotoTop`. -/
def LogViewModel.GotoTop (m : LogViewModel) : LogViewModel :=
  { m with follow := false, viewport := m.viewport.gotoTop }

/-- `GotoBottom`. -/
def LogViewModel.GotoBottom (m : LogViewModel) : LogViewModel :=
  { m with follow := true, viewport := m.viewport.gotoBottom }

/-! ## Exec view (`internal/ui/exec.go`, `ExecViewModel`) -/

/-- `ExecViewState`. -/
inductive ExecViewState where
  | idle
  | running
  | complete
  | error
deriving DecidableEq

/-- `maxHistorySize`. -/
def maxHistorySize : Nat := 50

/-- The command execution component (fields that carry state; the text
input is embedded as its current value). -/
structure ExecViewModel where
  inputValue : String
  outputLines : List String
  history : List String
  historyIndex : Int
  state : ExecViewState
  pod : String
  container : String
  namespaceName : String
  errorMsg : String
  width : Nat
  height : Nat
  ready : Bool
deriving DecidableEq

/-- `NewExecViewModel`. -/
def NewExecViewModel : ExecViewModel :=
  { inputValue := ""
    outputLines := []
    history := []
    historyIndex := -1
    state := .idle
    pod := ""
    container := ""
    namespaceName := ""
    errorMsg := ""
    width := 0
    height := 0
    ready := false }

/-- `AddToHistory`: skip empty commands and duplicates of the last entry;
append, then drop the oldest entry when the bound is exceeded. -/
def ExecViewModel.AddToHistory (m : ExecViewModel) (cmd : String) : ExecViewModel :=
  if cmd = "" then m
  else if 0 < m.history.length ∧ m.history.getLast? = some cmd then m
  else
    let h := m.history ++ [cmd]
    let h := if maxHistorySize < h.length then h.drop 1 else h
    { m with history := h, historyIndex := (h.length : Int) }

/-! ## Application model (`internal/app/app.go`, `internal/model`, k8s data types) -/

/-- `model.ViewState`. -/
inductive ViewState where
  | podList
  | logs
  | exec
  | files
  | namespaceSelector
  | contextSelector
  | help
deriving DecidableEq

/-- `ViewState.IsOverlay`. -/
def ViewState.isOverlay : ViewState → Bool
  | .namespaceSelector => true
  | .contextSelector => true
  | .help => true
  | _ => false

/-- `k8s.ContainerStatus`. -/
structure ContainerStatus where
  name : String
  ready : Bool
  restartCount : Int
  state : String
  stateReason : String
deriving DecidableEq

/-- `k8s.PodInfo` (`PodStatus` and `time.Duration` embedded as `String`
and nanosecond count). -/
structure PodInfo where
  name : String
  namespaceName : String
  status : String
  statusMessage : String
  ready : String
  restarts : Int
  age : Int
  ip : String
  node : String
  containers : List ContainerStatus
  containerCount : Nat
  readyCount : Nat
deriving DecidableEq

/-- `k8s.NamespaceInfo`. -/
structure NamespaceInfo where
  name : String
  status : String
  age : Int
  isCurrent : Bool
deriving DecidableEq

/-- `k8s.ContextInfo`. -/
structure ContextInfo where
  name : String
  cluster : String
  user : String
  namespaceName : String
  isCurrent : Bool
deriving DecidableEq

/-- The state-carrying fields of `app.Model`.  The keybinding table and the
help renderer are static configuration and carry no transition state; the
client pointer, the cancellation handle and the channel are embedded by
their presence (`nil`-ness), and the error field by its message. -/
structure AppModel where
  view : ViewState
  prevView : ViewState
  showHelp : Bool
  width : Nat
  height : Nat
  ready : Bool
  hasK8sClient : Bool
  k8sErr : Option String
  pods : List PodInfo
  namespaces : List NamespaceInfo
  contexts : List ContextInfo
  loadingK8s : Bool
  loadingPods : Bool
  loadingNamespaces : Bool
  selectedPodIndex : Nat
  selectedNamespaceIndex : Nat
  selectedContextIndex : Nat
  logView : LogViewModel
  hasLogCancel : Bool
  hasLogChan : Bool
  logStreamActive : Bool
  selectedContainer : String
deriving DecidableEq

/-- The commands the log-stream transitions hand back to the event loop. -/
inductive AppCmd where
  | none
  | logErr (msg : String)
  | startStream (namespaceName pod container : String) (tailLines : Nat)
deriving DecidableEq

/-- `Model.stopLogStream`: release the cancellation handle and the channel,
deactivate the stream, and force the log view to `Ended`. -/
def AppModel.stopLogStream (m : AppModel) : AppModel :=
  { m with
    hasLogCancel := false
    hasLogChan := false
    logStreamActive := false
    logView := m.logView.SetState .ended }

/-- `Model.initLogStream`: guard on the client and the selection, stop any
existing stream, pick the container, clear and prime the log view, and
request the stream. -/
def AppModel.initLogStream (m : AppModel) : AppModel × AppCmd :=
  if m.hasK8sClient = false then
    (m, .logErr "k8s client not initialized")
  else
    match m.pods.get? m.selectedPodIndex with
    | Option.none => (m, .logErr "no pod selected")
    | some pod =>
      let m := m.stopLogStream
      let container :=
        match m.selectedContainer, pod.containers with
        | "", c :: _ => c.name
        | sc, _ => sc
      let m :=
        { m with
          logView := ((m.logView.Clear.SetPodInfo pod.namespaceName pod.name
            container).SetState .streaming)
          selectedContainer := container
          hasLogCancel := true
          logStreamActive := true }
      (m, .startStream pod.namespaceName pod.name container 100)

/-- The `Logs` branch of `Model.handlePodListKeys`: with a non-empty pod
list, switch to the Logs screen, reset the selected container and start the
stream; otherwise do nothing. -/
def AppModel.handlePodListLogsKey (m : AppModel) : AppModel × AppCmd :=
  if 0 < m.pods.length then
    AppModel.initLogStream { m with view := .logs, selectedContainer := "" }
  else
    (m, .none)

/-- The three list-load result messages of `Model.Update`. -/
inductive LoadMsg where
  | podsLoaded (pods : List PodInfo) (err : Option String)
  | namespacesLoaded (namespaces : List NamespaceInfo) (err : Option String)
  | contextsLoaded (contexts : List ContextInfo) (currentContext : String) (err : Option String)

/-- The `podsLoadedMsg` / `namespacesLoadedMsg` / `contextsLoadedMsg` cases
of `Model.Update`.  A failure stores the error and leaves the list alone; a
successful pod load also resets the error, while successful namespace and
context loads relocate the current-selection index without touching the
error field. -/
def AppModel.updateLoaded (m : AppModel) : LoadMsg → AppModel
  | .podsLoaded pods err =>
    let m := { m with loadingPods := false }
    match err with
    | some e => { m with k8sErr := some e }
    | Option.none => { m with pods := pods, k8sErr := Option.none }
  | .namespacesLoaded nss err =>
    let m := { m with loadingNamespaces := false }
    match err with
    | some e => { m with k8sErr := some e }
    | Option.none =>
      let m := { m with namespaces := nss }
      { m with
        selectedNamespaceIndex :=
          match nss.findIdx? (fun ns => ns.isCurrent) with
          | some i => i
          | Option.none => m.selectedNamespaceIndex }
  | .contextsLoaded ctxs _ err =>
    match err with
    | some e => { m with k8sErr := some e }
    | Option.none =>
      let m := { m with contexts := ctxs }
      { m with
        selectedContextIndex :=
          match ctxs.findIdx? (fun ctx => ctx.isCurrent) with
          | some i => i
          | Option.none => m.selectedContextIndex }

/-- A baseline application model (`app.New()` with the embedded defaults). -/
def NewAppModel : AppModel :=
  { view := .podList
    prevView := .podList
    showHelp := false
    width := 0
    height := 0
    ready := false
    hasK8sClient := false
    k8sErr := Option.none
    pods := []
    namespaces := []
    contexts := []
    loadingK8s := true
    loadingPods := false
    loadingNamespaces := false
    selectedPodIndex := 0
    selectedNamespaceIndex := 0
    selectedContextIndex := 0
    logView := NewLogViewModel
    hasLogCancel := false
    hasLogChan := false
    logStreamActive := false
    selectedContainer := "" }

/-! ## Auxiliary definitions used by the statements below -/

/-- The quoting mode reached after scanning `xs` from mode `q` (each double
quote toggles it). -/
def quoteState (xs : List Char) (q : Bool) : Bool :=
  xs.foldl (fun a c => if c = '\"' then !a else a) q

/-- The record produced for the specification's example symlink line. -/
def exampleSymlinkRecord : FileInfo :=
  { name := "link", isDir := false, isSymlink := true, size := 10,
    permissions := "lrwxrwxrwx", owner := "root", group := "root",
    modTime := "Jan 1 12:00", linkTarget := "/target" }

/-- A concrete single-container pod. -/
def examplePod : PodInfo :=
  { name := "alpha", namespaceName := "default", status := "Running",
    statusMessage := "", ready := "1/1", restarts := 0, age := 0, ip := "",
    node := "", containers := [⟨"main", true, 0, "Running", ""⟩],
    containerCount := 1, readyCount := 1 }

/-- A concrete connected application model holding one pod. -/
def exampleAppModel : AppModel :=
  { NewAppModel with hasK8sClient := true, pods := [examplePod] }

/-! ## Helper lemmas -/

theorem addLine_maxLines (m : LogViewModel) (l : String) :
    (m.AddLine l).maxLines = m.maxLines := by
  simp only [LogViewModel.AddLine]
  split <;> rfl

theorem addLine_length_le (m : LogViewModel) (l : String)
    (hmax : m.maxLines = 10000) (h : m.lines.length ≤ 10000) :
    (m.AddLine l).lines.length ≤ 10000 := by
  simp only [LogViewModel.AddLine]
  split
  · simp only [List.length_drop, List.length_append, List.length_singleton]
    omega
  · rename_i hle
    simp only [List.length_append, List.length_singleton]
    simp only [List.length_append, List.length_singleton, hmax, not_lt] at hle
    omega

theorem addLine_fold_length_le (ls : List String) :
    ∀ m : LogViewModel, m.maxLines = 10000 → m.lines.length ≤ 10000 →
      (ls.foldl LogViewModel.AddLine m).lines.length ≤ 10000 := by
  induction ls with
  | nil => intro m _ h; exact h
  | cons l rest ih =>
    intro m hmax h
    simp only [List.foldl_cons]
    exact ih _ (by rw [addLine_maxLines]; exact hmax) (addLine_length_le m l hmax h)

theorem addToHistory_length_le (m : ExecViewModel) (cmd : String)
    (h : m.history.length ≤ 50) : (m.AddToHistory cmd).history.length ≤ 50 := by
  unfold ExecViewModel.AddToHistory
  split
  · exact h
  split
  · exact h
  dsimp only
  split
  · rename_i hgt
    simp only [List.length_drop, List.length_append, List.length_singleton]
    omega
  · rename_i hle
    simp only [maxHistorySize, List.length_append, List.length_singleton,
      not_lt] at hle
    simpa using hle

theorem addToHistory_fold_length_le (cmds : List String) :
    ∀ m : ExecViewModel, m.history.length ≤ 50 →
      (cmds.foldl ExecViewModel.AddToHistory m).history.length ≤ 50 := by
  induction cmds with
  | nil => intro m h; exact h
  | cons c rest ih =>
    intro m h
    simp only [List.foldl_cons]
    exact ih _ (addToHistory_length_le m c h)

theorem pcLoop_tokens (xs : List Char) :
    ∀ (q : Bool) (cur : List Char), '\"' ∉ cur →
      ∀ t ∈ pcLoop xs q cur, t ≠ [] ∧ '\"' ∉ t := by
  induction xs with
  | nil =>
    intro q cur hcur t ht
    simp only [pcLoop] at ht
    split at ht
    · simp at ht
    · rename_i hne
      simp only [List.mem_singleton] at ht
      subst ht
      exact ⟨by simpa [List.isEmpty_iff] using hne, hcur⟩
  | cons c rest ih =>
    intro q cur hcur t ht
    simp only [pcLoop] at ht
    split at ht
    · exact ih _ _ hcur t ht
    · rename_i hq
      split at ht
      · split at ht
        · exact ih _ _ (by simp) t ht
        · rename_i hne
          rcases List.mem_cons.mp ht with h | h
          · subst h
            exact ⟨by simpa [List.isEmpty_iff] using hne, hcur⟩
          · exact ih _ _ (by simp) t h
      · refine ih _ _ ?_ t ht
        simp only [List.mem_append, List.mem_singleton]
        rintro (h | h)
        · exact hcur h
        · exact hq h.symm

theorem pcLoop_all_quotes (xs : List Char) (h : ∀ c ∈ xs, c = '\"') :
    ∀ q : Bool, pcLoop xs q [] = [] := by
  induction xs with
  | nil => intro q; simp [pcLoop]
  | cons c rest ih =>
    intro q
    have hc : c = '\"' := h c (by simp)
    simp only [pcLoop, if_pos hc]
    exact ih (fun x hx => h x (by simp [hx])) (!q)

theorem quoteState_cons (c : Char) (xs : List Char) (q : Bool) :
    quoteState (c :: xs) q = quoteState xs (if c = '\"' then !q else q) := rfl

theorem pcLoop_space_split (ys : List Char) :
    ∀ (xs : List Char) (q : Bool) (cur : List Char), quoteState xs q = false →
      pcLoop (xs ++ ' ' :: ys) q cur = pcLoop xs q cur ++ pcLoop ys false [] := by
  intro xs
  induction xs with
  | nil =>
    intro q cur hq
    have hq' : q = false := hq
    subst hq'
    simp only [List.nil_append, pcLoop]
    rw [if_neg (by decide), if_pos (by simp)]
    split
    · simp
    · simp
  | cons c rest ih =>
    intro q cur hq
    rw [quoteState_cons] at hq
    by_cases hc : c = '\"'
    · rw [if_pos hc] at hq
      simp only [List.cons_append, pcLoop, if_pos hc]
      exact ih (!q) cur hq
    · rw [if_neg hc] at hq
      by_cases hsp : c = ' ' ∧ q = false
      · simp only [List.cons_append, pcLoop, if_neg hc, if_pos hsp, List.append_eq]
        split
        · exact ih q [] hq
        · rw [ih q [] hq, List.cons_append]
      · simp only [List.cons_append, pcLoop, if_neg hc, if_neg hsp]
        exact ih q (cur ++ [c]) hq

theorem goTrimSpace_all_space (l : List Char)
    (h : ∀ c ∈ l, goUnicodeIsSpace c = true) : goTrimSpace l = [] := by
  unfold goTrimSpace
  rw [List.dropWhile_eq_nil_iff.mpr (fun x hx => h x hx)]
  simp

theorem mem_of_mem_goTrimSpace {l : List Char} {c : Char}
    (h : c ∈ goTrimSpace l) : c ∈ l := by
  unfold goTrimSpace at h
  rw [List.mem_reverse] at h
  have h1 := (List.dropWhile_sublist goUnicodeIsSpace).mem h
  rw [List.mem_reverse] at h1
  exact (List.dropWhile_sublist goUnicodeIsSpace).mem h1

/-! ## Claim theorems -/

/-- Claim C1: starting from an empty log buffer, every sequence of
`AddLine` calls keeps the buffer at or below 10,000 lines; an append that
makes the count exceed 10,000 removes exactly the oldest 1,000 lines in one
batch, preserving the order of the retained lines and keeping the appended
line, while an append below the bound just appends. -/
theorem log_buffer_bound_batch_trim :
    (∀ ls : List String,
       (ls.foldl LogViewModel.AddLine NewLogViewModel).lines.length ≤ 10000)
  ∧ (∀ (m : LogViewModel) (line : String), m.maxLines = 10000 →
       m.lines.length = 10000 →
       (m.AddLine line).lines = m.lines.drop 1000 ++ [line])
  ∧ (∀ (m : LogViewModel) (line : String), m.maxLines = 10000 →
       m.lines.length < 10000 →
       (m.AddLine line).lines = m.lines ++ [line]) := by
  refine ⟨fun ls => addLine_fold_length_le ls NewLogViewModel rfl (by decide), ?_, ?_⟩
  · intro m line hmax hlen
    have hc : m.maxLines < (m.lines ++ [line]).length := by
      simp only [List.length_append, List.length_singleton]
      omega
    simp only [LogViewModel.AddLine, if_pos hc]
    have h10 : m.maxLines / 10 = 1000 := by rw [hmax]
    rw [h10]
    exact List.drop_append_of_le_length (by omega)
  · intro m line hmax hlen
    have hc : ¬ m.maxLines < (m.lines ++ [line]).length := by
      simp only [List.length_append, List.length_singleton, not_lt]
      omega
    simp only [LogViewModel.AddLine, if_neg hc]

/-- Witness for C1 at a full buffer of 10,000 lines. -/
theorem log_buffer_bound_batch_trim_witness :
    ({ NewLogViewModel with lines := List.replicate 10000 "x" }.AddLine "y").lines
      = (List.replicate 10000 "x").drop 1000 ++ ["y"] :=
  log_buffer_bound_batch_trim.2.1 _ "y" rfl
    (by show (List.replicate 10000 "x").length = 10000; rw [List.length_replicate])

/-- Claim C2: `GotoBottom` sets the follow flag; every scroll-up action
(`ScrollUp`, `PageUp`, `GotoTop`) clears it; a scroll-down action
(`ScrollDown`, `PageDown`) sets it exactly when the viewport lands at the
bottom and otherwise leaves it unchanged (`b || follow` is `true` when the
landing position `b` is the bottom and `follow` otherwise). -/
theorem follow_flag_postconditions :
    ∀ (m : LogViewModel) (n : Nat),
      (m.GotoBottom).follow = true
    ∧ (m.ScrollUp n).follow = false
    ∧ (m.PageUp).follow = false
    ∧ (m.GotoTop).follow = false
    ∧ (m.ScrollDown n).follow = ((m.viewport.lineDownTimes n).atBottom || m.follow)
    ∧ (m.PageDown).follow = (m.viewport.viewDown.atBottom || m.follow) := by
  intro m n
  refine ⟨rfl, rfl, rfl, rfl, ?_, ?_⟩
  · unfold LogViewModel.ScrollDown
    cases h : (m.viewport.lineDownTimes n).atBottom <;> simp [h]
  · unfold LogViewModel.PageDown
    cases h : m.viewport.viewDown.atBottom <;> simp [h]

/-- Claim C7: stopping the log stream forces the consumer to `Ended` from
every state, releases the cancellation handle and the channel, introduces no
error, and is idempotent (a second stop is a no-op). -/
theorem stop_log_stream_idempotent :
    ∀ m : AppModel,
      (m.stopLogStream).logView.state = .ended
    ∧ m.stopLogStream.stopLogStream = m.stopLogStream
    ∧ (m.stopLogStream).hasLogCancel = false
    ∧ (m.stopLogStream).hasLogChan = false
    ∧ (m.stopLogStream).logStreamActive = false
    ∧ (m.stopLogStream).logView.errorMsg = m.logView.errorMsg :=
  fun _ => ⟨rfl, rfl, rfl, rfl, rfl, rfl⟩

/-- Counterexample to claim C8: after a failed namespace load sets the last
error, a subsequent successful namespace load does not clear it — the code
only clears `k8sErr` in the pod-load handler. -/
theorem namespaces_success_keeps_last_error :
    ((NewAppModel.updateLoaded (.namespacesLoaded [] (some "boom"))).updateLoaded
        (.namespacesLoaded [⟨"default", "Active", 0, true⟩] Option.none)).k8sErr
      = some "boom"
  ∧ ((NewAppModel.updateLoaded (.namespacesLoaded [] (some "boom"))).updateLoaded
        (.namespacesLoaded [⟨"default", "Active", 0, true⟩] Option.none)).k8sErr
      ≠ Option.none := ⟨rfl, by decide⟩

/-- Amended claim C8: every failed list load (pods, namespaces, contexts)
sets the single last-error field and leaves the previously loaded list of
that kind unchanged; the error is cleared by the next successful pod load,
while successful namespace and context loads leave it unchanged. -/
theorem load_error_surfacing_amended :
    ∀ (m : AppModel) (e : String) (pods : List PodInfo)
      (nss : List NamespaceInfo) (ctxs : List ContextInfo) (cur : String),
      (m.updateLoaded (.podsLoaded pods (some e))).pods = m.pods
    ∧ (m.updateLoaded (.podsLoaded pods (some e))).k8sErr = some e
    ∧ (m.updateLoaded (.namespacesLoaded nss (some e))).namespaces = m.namespaces
    ∧ (m.updateLoaded (.namespacesLoaded nss (some e))).k8sErr = some e
    ∧ (m.updateLoaded (.contextsLoaded ctxs cur (some e))).contexts = m.contexts
    ∧ (m.updateLoaded (.contextsLoaded ctxs cur (some e))).k8sErr = some e
    ∧ (m.updateLoaded (.podsLoaded pods Option.none)).k8sErr = Option.none
    ∧ (m.updateLoaded (.namespacesLoaded nss Option.none)).k8sErr = m.k8sErr
    ∧ (m.updateLoaded (.contextsLoaded ctxs cur Option.none)).k8sErr = m.k8sErr :=
  fun _ _ _ _ _ _ => ⟨rfl, rfl, rfl, rfl, rfl, rfl, rfl, rfl, rfl⟩

/-- Claim C10: the exec command history never exceeds 50 entries starting
from a fresh model; an empty command is never added; a command equal to the
current last entry is not appended again; and at the bound the oldest entry
is dropped when a new command is appended. -/
theorem exec_history_bounded_dedup :
    (∀ cmds : List String,
       (cmds.foldl ExecViewModel.AddToHistory NewExecViewModel).history.length ≤ 50)
  ∧ (∀ m : ExecViewModel, m.AddToHistory "" = m)
  ∧ (∀ (m : ExecViewModel) (cmd : String), m.history.getLast? = some cmd →
       m.AddToHistory cmd = m)
  ∧ (∀ (m : ExecViewModel) (cmd : String), cmd ≠ "" →
       m.history.getLast? ≠ some cmd → m.history.length = 50 →
       (m.AddToHistory cmd).history = m.history.drop 1 ++ [cmd]) := by
  refine ⟨fun cmds => addToHistory_fold_length_le cmds NewExecViewModel (by decide),
    fun m => by simp [ExecViewModel.AddToHistory], ?_, ?_⟩
  · intro m cmd hlast
    have hnil : m.history ≠ [] := by
      intro hnil
      rw [hnil] at hlast
      exact Option.noConfusion hlast
    simp only [ExecViewModel.AddToHistory]
    split
    · rfl
    · rw [if_pos ⟨List.length_pos.mpr hnil, hlast⟩]
  · intro m cmd hne hlast hlen
    have hc : maxHistorySize < (m.history ++ [cmd]).length := by
      simp only [maxHistorySize, List.length_append, List.length_singleton]
      omega
    simp only [ExecViewModel.AddToHistory, if_neg hne,
      if_neg (fun (h : 0 < m.history.length ∧ m.history.getLast? = some cmd) =>
        hlast h.2),
      if_pos hc]
    exact List.drop_append_of_le_length (by omega)

/-- Witness for C10 at a history already holding 50 entries. -/
theorem exec_history_bounded_dedup_witness :
    ({ NewExecViewModel with history := List.replicate 50 "a" }.AddToHistory "b").history
      = (List.replicate 50 "a").drop 1 ++ ["b"] :=
  exec_history_bounded_dedup.2.2.2 _ "b" (by decide) (by decide) (by simp)

theorem logView_updateViewportContent_lines (m : LogViewModel) :
    m.updateViewportContent.lines = m.lines := by
  simp only [LogViewModel.updateViewportContent]
  split <;> rfl

theorem logView_clear_lines (lv : LogViewModel) : lv.Clear.lines = [] := by
  simp only [LogViewModel.Clear]
  rw [logView_updateViewportContent_lines]

/-- Claim C3: on the pod-list screen, pressing the logs key with an empty
pod list changes nothing; with a valid selected pod it switches the view to
Logs, resets the selected container to the first container of the selected
pod, clears the previously buffered log lines and only then requests the
stream (the returned command carries the stream request). -/
theorem open_logs_from_pod_list :
    (∀ m : AppModel, m.pods = [] → m.handlePodListLogsKey = (m, AppCmd.none))
  ∧ (∀ (m : AppModel) (pod : PodInfo) (c : ContainerStatus) (cs : List ContainerStatus),
      m.hasK8sClient = true →
      m.pods.get? m.selectedPodIndex = some pod →
      pod.containers = c :: cs →
      (m.handlePodListLogsKey).1.view = ViewState.logs
    ∧ (m.handlePodListLogsKey).1.selectedContainer = c.name
    ∧ (m.handlePodListLogsKey).1.logView.lines = []
    ∧ (m.handlePodListLogsKey).1.logView.state = LogViewState.streaming
    ∧ (m.handlePodListLogsKey).2
        = AppCmd.startStream pod.namespaceName pod.name c.name 100) := by
  constructor
  · intro m hpods
    simp [AppModel.handlePodListLogsKey, hpods]
  · intro m pod c cs hcl hget hcont
    have hlen : 0 < m.pods.length := by
      obtain ⟨hlt, -⟩ := List.get?_eq_some.mp hget
      omega
    have hclf :
        ¬ (({ m with view := ViewState.logs, selectedContainer := "" } : AppModel).hasK8sClient
            = false) := by
      dsimp only
      rw [hcl]
      simp
    simp only [AppModel.handlePodListLogsKey, AppModel.initLogStream, if_pos hlen,
      if_neg hclf]
    rw [hget]
    simp only [AppModel.stopLogStream]
    rw [hcont]
    simp [logView_clear_lines, LogViewModel.SetPodInfo, LogViewModel.SetState]

/-- Witness for C3 at a connected model holding one single-container pod. -/
theorem open_logs_from_pod_list_witness :
    (exampleAppModel.handlePodListLogsKey).1.view = ViewState.logs
  ∧ (exampleAppModel.handlePodListLogsKey).1.selectedContainer = "main"
  ∧ (exampleAppModel.handlePodListLogsKey).1.logView.lines = []
  ∧ (exampleAppModel.handlePodListLogsKey).1.logView.state = LogViewState.streaming
  ∧ (exampleAppModel.handlePodListLogsKey).2
      = AppCmd.startStream "default" "alpha" "main" 100 :=
  open_logs_from_pod_list.2 exampleAppModel examplePod
    ⟨"main", true, 0, "Running", ""⟩ [] rfl rfl rfl

/-- Counterexample to claim C6: a tab is whitespace but is not a separator
for `ParseCommand` — only the space character separates tokens, so the
run of whitespace in the input does not split it into two arguments. -/
theorem parse_command_tab_not_separator :
    ParseCommand "a\tb" = ["a\tb"] ∧ ParseCommand "a\tb" ≠ ["a", "b"] :=
  ⟨by decide, by decide⟩

/-- Amended claim C6: the tokenizer honours double-quote grouping (every
double quote toggles quoting mode), a run of space characters (U+0020)
outside quotes acts as a single separator (other whitespace is kept inside
tokens, though leading/trailing whitespace is trimmed), and empty or
whitespace-only input yields an empty result; `echo "hello world"` yields
`["echo", "hello world"]`.  The separator law is stated on the scanning
loop `pcLoop`: when the quoting mode is balanced off after `xs`, a space
splits the scan, and consecutive spaces collapse. -/
theorem parse_command_space_separation :
    ParseCommand "" = []
  ∧ ParseCommand "   " = []
  ∧ ParseCommand " \t " = []
  ∧ ParseCommand "echo \"hello world\"" = ["echo", "hello world"]
  ∧ (∀ (xs ys : List Char) (q : Bool) (cur : List Char), quoteState xs q = false →
       pcLoop (xs ++ ' ' :: ys) q cur = pcLoop xs q cur ++ pcLoop ys false [])
  ∧ (∀ ys : List Char, pcLoop (' ' :: ys) false [] = pcLoop ys false [])
  ∧ (∀ (rest : List Char) (q : Bool) (cur : List Char),
       pcLoop ('\"' :: rest) q cur = pcLoop rest (!q) cur)
  ∧ (∀ s : String, (∀ c ∈ s.data, goUnicodeIsSpace c = true) → ParseCommand s = []) := by
  refine ⟨by decide, by decide, by decide, by decide,
    fun xs ys q cur hq => pcLoop_space_split ys xs q cur hq,
    fun ys => by simp [pcLoop], fun rest q cur => rfl, ?_⟩
  intro s hs
  simp only [ParseCommand]
  rw [goTrimSpace_all_space s.data hs]
  rfl

/-- Witness for the separator law of the amended C6 at a concrete input. -/
theorem parse_command_space_separation_witness :
    pcLoop (['a'] ++ ' ' :: ['b']) false [] = pcLoop ['a'] false [] ++ pcLoop ['b'] false [] :=
  parse_command_space_separation.2.2.2.2.1 ['a'] ['b'] false [] (by decide)

/-- Claim C9: every token produced by `ParseCommand` is non-empty and
contains no double-quote character, and an input consisting only of quotes
tokenizes to the empty result. -/
theorem parse_command_tokens_quote_free :
    ∀ s : String,
      (∀ t ∈ ParseCommand s, t ≠ "" ∧ '\"' ∉ t.data)
    ∧ ((∀ c ∈ s.data, c = '\"') → ParseCommand s = []) := by
  intro s
  constructor
  · intro t ht
    simp only [ParseCommand] at ht
    split at ht
    · simp at ht
    · simp only [List.mem_map] at ht
      obtain ⟨w, hw, rfl⟩ := ht
      have hwt := pcLoop_tokens _ false [] (by simp) w hw
      refine ⟨?_, hwt.2⟩
      intro hc
      apply hwt.1
      have hdata : (String.mk w).data = ("" : String).data := by rw [hc]
      simpa using hdata
  · intro hall
    simp only [ParseCommand]
    split
    · rfl
    · rw [pcLoop_all_quotes _ (fun c hc => hall c (mem_of_mem_goTrimSpace hc)) false]
      rfl

/-- Witness for C9 at an input consisting only of double quotes. -/
theorem parse_command_tokens_quote_free_witness :
    ParseCommand "\"\"" = [] :=
  (parse_command_tokens_quote_free "\"\"").2 (by decide)

/-- Claim C5: `ParseLsOutput` is total and silently skips what it cannot
parse: the empty input and a lone `total 0` summary line yield the empty
sequence, the output never has more records than the input has lines, and a
leading blank line or a leading `total 0` line is dropped without affecting
the remaining lines. -/
theorem parse_ls_output_total_skip :
    ParseLsOutput "" = []
  ∧ ParseLsOutput "total 0" = []
  ∧ (∀ output : String, (ParseLsOutput output).length ≤ (splitNl output.data).length)
  ∧ (∀ rest : List Char,
      ParseLsOutput (String.mk ('\n' :: rest)) = ParseLsOutput (String.mk rest))
  ∧ (∀ rest : List Char,
      ParseLsOutput (String.mk ('t' :: 'o' :: 't' :: 'a' :: 'l' :: ' ' :: '0' :: '\n' :: rest))
        = ParseLsOutput (String.mk rest)) :=
  ⟨by decide, by decide, fun _ => List.length_filterMap_le _ _,
   fun _ => rfl, fun _ => rfl⟩

/-- Claim C4: every line accepted by the listing parser is classified by
the first character of its permission string (`d` ⇒ directory, `l` ⇒
symlink, anything else ⇒ plain file), and the specification's example
symlink line parses to name `link` and link target `/target` (split on the
first occurrence of the arrow). -/
theorem parse_ls_line_classification :
    (∀ (line : String) (r : FileInfo), parseLsLine line = some r →
       ((r.isDir = true ↔ r.permissions.data.headD ' ' = 'd')
      ∧ (r.isSymlink = true ↔ r.permissions.data.headD ' ' = 'l')))
  ∧ parseLsLine "lrwxrwxrwx 1 root root 10 Jan  1 12:00 link -> /target"
      = some exampleSymlinkRecord := by
  constructor
  · intro line r h
    unfold parseLsLine at h
    cases hm : matchLsLine line.data with
    | none => rw [hm] at h; exact absurd h (by simp)
    | some f =>
      rw [hm] at h
      dsimp only at h
      split at h
      · split at h
        · rename_i a b heq
          injection h with h'
          subst h'
          exact ⟨decide_eq_true_iff, decide_eq_true_iff⟩
        · injection h with h'
          subst h'
          exact ⟨decide_eq_true_iff, decide_eq_true_iff⟩
      · injection h with h'
        subst h'
        exact ⟨decide_eq_true_iff, decide_eq_true_iff⟩
  · decide

/-- Witness for C4 at the example symlink line. -/
theorem parse_ls_line_classification_witness :
    (exampleSymlinkRecord.isDir = true
       ↔ exampleSymlinkRecord.permissions.data.headD ' ' = 'd')
  ∧ (exampleSymlinkRecord.isSymlink = true
       ↔ exampleSymlinkRecord.permissions.data.headD ' ' = 'l') :=
  parse_ls_line_classification.1
    "lrwxrwxrwx 1 root root 10 Jan  1 12:00 link -> /target"
    exampleSymlinkRecord parse_ls_line_classification.2

end K8sTui
